import Mathlib

/-!
Shallow embedding of the `pdf_bucketing_mnbvc` pipeline
(`src/pdf_processor_v6.py`, with the submission loop of
`pdf_processor_v2.py`/`v3.py` where a claim cites it), together with
proofs and refutations of the specification's claims.

Machine reals do not appear: the only float in the source
(`processing_time`) is left at its initialised `0.0` in v6 (the update
on line 76 is commented out), so it is embedded as the constant CSV
field `"0.0"`.
-/

namespace PdfBucketing

/-- `os.path.normcase` in its non-trivial (Windows, `ntpath`) form:
replace `/` by `\` and lower-case.  Every call site of the source
(`find_pdf_files`, `load_processed_csv`, the consumption-site filter in
`process_pdfs`) uses this same function, which is all the proofs rely
on. -/
def normcase (s : String) : String :=
  ⟨s.data.map fun c => if c = '/' then '\\' else c.toLower⟩

/-! ## Inspector adapter: `process_single_pdf` (v6 lines 36-78)

The external capability (`Path.stat`, `fitz.open`) is modelled as data
carried by the file-system entry: `stat` is the byte size or the message
of the exception raised, `openRes` is the opened document or the message
of the exception raised by `fitz.open`. -/

/-- The part of a `fitz` document handle the code reads: `is_encrypted`
and `page_count`. -/
structure PdfDoc where
  isEncrypted : Bool
  pageCount : Nat
  deriving DecidableEq, Repr

/-- One file as the inspector sees it: its path string, the outcome of
`Path(path).stat().st_size`, and the outcome of `fitz.open(path)`. -/
structure PdfFsFile where
  path : String
  stat : Except String Nat
  openRes : Except String PdfDoc
  deriving Repr

/-- `PAGE_COUNT_THRESHOLD` (v6 line 20). -/
def PAGE_COUNT_THRESHOLD : Nat := 100

/-- `FILE_SIZE_THRESHOLD_BYTES = 10 * 1024 * 1024` (v6 line 21). -/
def FILE_SIZE_THRESHOLD_BYTES : Nat := 10 * 1024 * 1024

/-- The result record built by `process_single_pdf` (v6 lines 41-48);
`processing_time` stays at its initialised value in v6 and is omitted
(it reappears as the constant `"0.0"` CSV field in `outRow`). -/
structure Info where
  file_path : String
  file_size_bytes : Nat
  can_open : Bool
  page_count : Nat
  error_message : String
  category : String
  deriving DecidableEq, Repr

/-- The initialised result dictionary (v6 lines 41-49). -/
def initInfo (path : String) : Info :=
  { file_path := path
    file_size_bytes := 0
    can_open := false
    page_count := 0
    error_message := ""
    category := "N/A" }

/-- `process_single_pdf` (v6 lines 36-78): stat the file, reject files
under 100 bytes, open with fitz, reject encrypted documents, otherwise
record the page count and the `<page-class>-<size-class>` category;
every exception from `stat` or `open` is caught into `error_message`. -/
def process_single_pdf (f : PdfFsFile) : Info :=
  let info := initInfo f.path
  match f.stat with
  | .error e => { info with error_message := e }
  | .ok size =>
    let info := { info with file_size_bytes := size }
    if size < 100 then
      { info with error_message := "too small" }
    else
      match f.openRes with
      | .error e => { info with error_message := e }
      | .ok doc =>
        if doc.isEncrypted then
          { info with error_message := "encrypted" }
        else
          let info := { info with page_count := doc.pageCount, can_open := true }
          let page_cat := if info.page_count > PAGE_COUNT_THRESHOLD then "L" else "S"
          let size_cat := if size > FILE_SIZE_THRESHOLD_BYTES then "L" else "S"
          { info with category := page_cat ++ "-" ++ size_cat }

/-- C2 -- Category correctness: whenever `process_single_pdf` reports
`can_open = true`, the category is exactly
`(if page_count > 100 then "L" else "S") ++ "-" ++
 (if byte_size > 10 MiB then "L" else "S")`, the thresholds compared
strictly, so a result sitting exactly on a threshold classifies as
`"S"`. -/
theorem category_correct (f : PdfFsFile) (h : (process_single_pdf f).can_open = true) :
    (process_single_pdf f).category =
      (if PAGE_COUNT_THRESHOLD < (process_single_pdf f).page_count then "L" else "S")
        ++ "-"
        ++ (if FILE_SIZE_THRESHOLD_BYTES < (process_single_pdf f).file_size_bytes
            then "L" else "S") := by
  unfold process_single_pdf initInfo at *
  rcases f with ⟨p, stat, openRes⟩
  rcases stat with e | size
  · simp at h
  · simp only at h ⊢
    by_cases hsz : size < 100
    · simp [hsz] at h
    · rcases openRes with e | doc
      · simp [hsz] at h
      · by_cases henc : doc.isEncrypted
        · simp [hsz, henc] at h
        · simp [hsz, henc]

/-- Witness for C2: a 150-page, 1 KiB openable file classifies `"L-S"`,
matching the formula. -/
theorem category_correct_witness :
    (process_single_pdf ⟨"a.pdf", .ok 1024, .ok ⟨false, 150⟩⟩).can_open = true ∧
      (process_single_pdf ⟨"a.pdf", .ok 1024, .ok ⟨false, 150⟩⟩).category =
        (if PAGE_COUNT_THRESHOLD <
              (process_single_pdf ⟨"a.pdf", .ok 1024, .ok ⟨false, 150⟩⟩).page_count
          then "L" else "S")
          ++ "-"
          ++ (if FILE_SIZE_THRESHOLD_BYTES <
                (process_single_pdf ⟨"a.pdf", .ok 1024, .ok ⟨false, 150⟩⟩).file_size_bytes
              then "L" else "S") :=
  ⟨by decide, category_correct ⟨"a.pdf", .ok 1024, .ok ⟨false, 150⟩⟩ (by decide)⟩

/-- C3 -- Inspector total failure capture: `process_single_pdf` is a
total function returning a record for the given identity (its
`file_path` is the input path); a stat size under 100 bytes yields
`error_message = "too small"` with a result independent of the open
outcome (the document is never opened); an encrypted document yields
`error_message = "encrypted"` with `can_open = false`; any open failure
yields the underlying message with `can_open = false` and
`category = "N/A"`. -/
theorem inspector_total_failure_capture (f : PdfFsFile) :
    (process_single_pdf f).file_path = f.path
    ∧ (∀ size, f.stat = .ok size → size < 100 →
        (process_single_pdf f).error_message = "too small"
        ∧ ∀ alt : Except String PdfDoc,
            process_single_pdf ⟨f.path, f.stat, alt⟩ = process_single_pdf f)
    ∧ (∀ size doc, f.stat = .ok size → ¬ size < 100 →
        f.openRes = .ok doc → doc.isEncrypted = true →
        (process_single_pdf f).error_message = "encrypted"
        ∧ (process_single_pdf f).can_open = false)
    ∧ (∀ size e, f.stat = .ok size → ¬ size < 100 →
        f.openRes = .error e →
        (process_single_pdf f).error_message = e
        ∧ (process_single_pdf f).can_open = false
        ∧ (process_single_pdf f).category = "N/A") := by
  rcases f with ⟨p, stat, openRes⟩
  refine ⟨?_, ?_, ?_, ?_⟩
  · rcases stat with e | size
    · simp [process_single_pdf, initInfo]
    · simp only [process_single_pdf, initInfo]
      by_cases hsz : size < 100
      · simp [hsz]
      · rcases openRes with e | doc
        · simp [hsz]
        · by_cases henc : doc.isEncrypted <;> simp [hsz, henc]
  · rintro size rfl hsz
    exact ⟨by simp [process_single_pdf, initInfo, hsz], fun alt => by
      simp [process_single_pdf, initInfo, hsz]⟩
  · rintro size doc rfl hsz rfl henc
    constructor <;> simp [process_single_pdf, initInfo, hsz, henc]
  · rintro size e rfl hsz rfl
    refine ⟨?_, ?_, ?_⟩ <;> simp [process_single_pdf, initInfo, hsz]

/-- Witness for C3: a concrete 50-byte file exercises the too-small arm,
a concrete encrypted document the encrypted arm, and a concrete corrupt
document the open-failure arm of `inspector_total_failure_capture`. -/
theorem inspector_total_failure_capture_witness :
    ((process_single_pdf ⟨"t.pdf", .ok 50, .ok ⟨false, 3⟩⟩).error_message = "too small")
    ∧ ((process_single_pdf ⟨"e.pdf", .ok 500, .ok ⟨true, 3⟩⟩).error_message = "encrypted")
    ∧ ((process_single_pdf ⟨"c.pdf", .ok 500, .error "cannot open broken document"⟩).category
        = "N/A") :=
  ⟨((inspector_total_failure_capture ⟨"t.pdf", .ok 50, .ok ⟨false, 3⟩⟩).2.1
      50 rfl (by decide)).1,
   ((inspector_total_failure_capture ⟨"e.pdf", .ok 500, .ok ⟨true, 3⟩⟩).2.2.1
      500 ⟨true, 3⟩ rfl (by decide) rfl rfl).1,
   ((inspector_total_failure_capture
      ⟨"c.pdf", .ok 500, .error "cannot open broken document"⟩).2.2.2
      500 "cannot open broken document" rfl (by decide) rfl).2.2⟩

/-- C8 -- InspectionResult record invariant: every record produced by
the inspector satisfies `can_open = true → error_message = "" ∧
category ≠ "N/A"` and `category = "N/A" → can_open = false`. -/
theorem inspection_result_invariant (f : PdfFsFile) :
    ((process_single_pdf f).can_open = true →
      (process_single_pdf f).error_message = ""
      ∧ (process_single_pdf f).category ≠ "N/A")
    ∧ ((process_single_pdf f).category = "N/A" →
      (process_single_pdf f).can_open = false) := by
  rcases f with ⟨p, stat, openRes⟩
  rcases stat with e | size
  · simp [process_single_pdf, initInfo]
  · simp only [process_single_pdf, initInfo]
    by_cases hsz : size < 100
    · simp [hsz]
    · rcases openRes with e | doc
      · simp [hsz]
      · by_cases henc : doc.isEncrypted
        · simp [hsz, henc]
        · by_cases hpg : doc.pageCount > PAGE_COUNT_THRESHOLD <;>
            by_cases hb : size > FILE_SIZE_THRESHOLD_BYTES <;>
            simp [hsz, henc, hpg, hb]

/-- Witness for C8: the invariant instantiated at a concrete openable
file. -/
theorem inspection_result_invariant_witness :
    ((process_single_pdf ⟨"w.pdf", .ok 2048, .ok ⟨false, 7⟩⟩).can_open = true →
      (process_single_pdf ⟨"w.pdf", .ok 2048, .ok ⟨false, 7⟩⟩).error_message = ""
      ∧ (process_single_pdf ⟨"w.pdf", .ok 2048, .ok ⟨false, 7⟩⟩).category ≠ "N/A")
    ∧ ((process_single_pdf ⟨"w.pdf", .ok 2048, .ok ⟨false, 7⟩⟩).category = "N/A" →
      (process_single_pdf ⟨"w.pdf", .ok 2048, .ok ⟨false, 7⟩⟩).can_open = false) :=
  inspection_result_invariant ⟨"w.pdf", .ok 2048, .ok ⟨false, 7⟩⟩

/-! ## Report writer: `csv_writer_thread` (v6 lines 141-165)

The artifact is a CSV file modelled as a list of rows, each row the
list of its fields (the `csv` module's quoting round-trips fields
exactly, so rows-as-field-lists is faithful).  `none` models a missing
artifact.  Durability is modelled explicitly: `open(csv_file, 'a')`
creates the file at once, but `writer.writerow` only fills the process
I/O buffer; bytes reach the file when the buffer is flushed, which the
thread does only implicitly by closing the file on exit -- there is no
`flush()` call in the loop (v6 lines 150-165). -/

/-- The header row written by `csv_writer_thread` (v6 lines 148-149). -/
def stdHeader : List String :=
  ["file_path", "file_size_bytes", "can_open", "page_count",
   "processing_time", "error_message", "category"]

/-- `str()` of a Python bool, as `csv.writer` renders the `can_open`
field. -/
def pyBoolStr (b : Bool) : String := if b then "True" else "False"

/-- The CSV row written for one result (v6 lines 156-164); the
`processing_time` field is the constant `0.0` in v6 (line 46; the
update on line 76 is commented out). -/
def outRow (i : Info) : List String :=
  [i.file_path, toString i.file_size_bytes, pyBoolStr i.can_open,
   toString i.page_count, "0.0", i.error_message, i.category]

/-- Writer-thread file state: `durable` rows already on disk, `buffer`
rows written by `csv.writer` but not yet flushed. -/
structure WriterState where
  durable : List (List String)
  buffer : List (List String)
  deriving DecidableEq, Repr

/-- Writer startup (v6 lines 143-149): `open(csv_file, 'a')` creates the
file (existing content stays durable), and the header goes into the
buffer exactly when the file did not exist beforehand. -/
def writerStart (art : Option (List (List String))) : WriterState :=
  { durable := art.getD []
    buffer := if art.isSome then [] else [stdHeader] }

/-- One iteration of the writer loop body on a received batch (v6 lines
154-165): every row of the batch is appended, in batch order, to the
buffer; nothing is flushed. -/
def writerStep (s : WriterState) (batch : List (List String)) : WriterState :=
  { s with buffer := s.buffer ++ batch }

/-- The file states the writer passes through: the state just before
requesting batch `i+1` from the queue is entry `i+1` of this list. -/
def writerStates (art : Option (List (List String)))
    (batches : List (List (List String))) : List WriterState :=
  batches.scanl writerStep (writerStart art)

/-- Closing the file flushes the buffer to disk. -/
def writerClose (s : WriterState) : List (List String) :=
  s.durable ++ s.buffer

/-- Artifact content after a writer thread run that received `batches`
and then the `None` sentinel, and terminated (closing the file). -/
def runWriterLines (art : Option (List (List String)))
    (batches : List (List (List String))) : List (List String) :=
  writerClose (batches.foldl writerStep (writerStart art))

/-- Artifact left behind when the process is killed during a writer run
after the operating system flushed `k` of the newly buffered lines
(`k = 0`: the file was created but nothing, not even the header, reached
disk). -/
def interruptedRunWriter (art : Option (List (List String)))
    (batches : List (List (List String))) (k : Nat) :
    Option (List (List String)) :=
  some (art.getD [] ++
    (((if art.isSome then [] else [stdHeader]) ++ batches.flatten).take k))

/-- Folding any number of completed writer runs over an initial
artifact state. -/
def completedRuns :
    Option (List (List String)) → List (List (List (List String))) →
      Option (List (List String))
  | art, [] => art
  | art, bs :: rest => completedRuns (some (runWriterLines art bs)) rest

theorem writerStep_foldl (s : WriterState) (batches : List (List (List String))) :
    batches.foldl writerStep s = { s with buffer := s.buffer ++ batches.flatten } := by
  induction batches generalizing s with
  | nil => simp
  | cons b rest ih => simp [writerStep, ih]

/-- Closed form of a completed writer run: previous content, then the
header exactly when the artifact was new, then the rows of all batches
in order. -/
theorem runWriterLines_eq (art : Option (List (List String)))
    (batches : List (List (List String))) :
    runWriterLines art batches =
      art.getD [] ++ (if art.isSome then [] else [stdHeader]) ++ batches.flatten := by
  simp [runWriterLines, writerStep_foldl, writerClose, writerStart]

/-- A concrete result row used in counterexamples and witnesses. -/
def sampleRowA : List String := outRow ⟨"a.pdf", 1024, true, 5, "", "S-S"⟩

/-- A second concrete result row. -/
def sampleRowB : List String := outRow ⟨"b.pdf", 2048, true, 7, "", "S-S"⟩

/-- A third concrete result row. -/
def sampleRowC : List String := outRow ⟨"c.pdf", 4096, true, 9, "", "S-S"⟩

theorem writerStates_durable (s0 : WriterState) (batches : List (List (List String))) :
    ∀ s ∈ batches.scanl writerStep s0, s.durable = s0.durable := by
  induction batches generalizing s0 with
  | nil =>
    intro s hs
    simp [List.scanl] at hs
    simp [hs]
  | cons b rest ih =>
    intro s hs
    simp only [List.scanl, List.mem_cons] at hs
    rcases hs with rfl | hs
    · rfl
    · exact (ih (writerStep s0 b) s hs).trans rfl

/-- C5 (amended) -- Writer per-batch append order without per-batch
durability: a completed writer run appends, after the pre-existing
content and the header (written only for a new artifact), every row of
every received batch in batch order; but at every point before thread
exit, including just before each request for the next batch, the durable
content is still exactly the pre-existing content -- the loop contains
no flush, so data only becomes durable when the file is closed at
writer shutdown. -/
theorem writer_batch_order_no_flush (art : Option (List (List String)))
    (batches : List (List (List String))) :
    runWriterLines art batches =
      art.getD [] ++ (if art.isSome then [] else [stdHeader]) ++ batches.flatten
    ∧ ∀ s ∈ writerStates art batches, s.durable = art.getD [] :=
  ⟨runWriterLines_eq art batches, fun s hs =>
    writerStates_durable (writerStart art) batches s hs⟩

/-- Witness for C5 (amended): a fresh artifact receiving one batch; the
closed form holds and the state just before the next queue request has
nothing new durable. -/
theorem writer_batch_order_no_flush_witness :
    runWriterLines none [[sampleRowA]] =
      (none : Option (List (List String))).getD []
        ++ (if (none : Option (List (List String))).isSome then [] else [stdHeader])
        ++ [[sampleRowA]].flatten
    ∧ ((writerStates none [[sampleRowA]]).getD 1 ⟨[], []⟩).durable =
        (none : Option (List (List String))).getD [] :=
  ⟨(writer_batch_order_no_flush none [[sampleRowA]]).1,
   (writer_batch_order_no_flush none [[sampleRowA]]).2
     ((writerStates none [[sampleRowA]]).getD 1 ⟨[], []⟩) (by decide)⟩

/-- Counterexample to C5 as stated: after the writer has received and
written three batches into a fresh artifact (and is about to request the
next item from the channel), nothing at all is durable -- all three
batches, not at most one, would be lost by a process kill, refuting
"makes the written data durable (flush) before requesting the next
batch". -/
theorem writer_flush_counterexample :
    ((writerStates none [[sampleRowA], [sampleRowB], [sampleRowC]]).getD 3
        ⟨[], []⟩).durable = []
    ∧ ((writerStates none [[sampleRowA], [sampleRowB], [sampleRowC]]).getD 3
        ⟨[], []⟩).buffer = [stdHeader, sampleRowA, sampleRowB, sampleRowC] := by
  decide

theorem outRow_ne_stdHeader (i : Info) : outRow i ≠ stdHeader := by
  intro h
  have h4 := congrArg (fun l => l[4]?) h
  simp [outRow, stdHeader] at h4

theorem completedRuns_header_invariant
    (runs : List (List (List (List String)))) :
    ∀ (t : List (List String)),
      (∀ run ∈ runs, ∀ batch ∈ run, ∀ row ∈ batch, ∃ i, row = outRow i) →
      stdHeader ∉ t →
      ∃ t', completedRuns (some (stdHeader :: t)) runs = some (stdHeader :: t')
        ∧ stdHeader ∉ t' := by
  induction runs with
  | nil => exact fun t _ ht => ⟨t, rfl, ht⟩
  | cons r rest ih =>
    intro t hrows ht
    have hstep : runWriterLines (some (stdHeader :: t)) r =
        stdHeader :: (t ++ r.flatten) := by
      simp [runWriterLines_eq]
    have hnotin : stdHeader ∉ t ++ r.flatten := by
      intro hmem
      rcases List.mem_append.mp hmem with hmem | hmem
      · exact ht hmem
      · rcases List.mem_flatten.mp hmem with ⟨batch, hb, hrow⟩
        rcases hrows r (List.mem_cons_self r rest) batch hb _ hrow with ⟨i, hi⟩
        exact outRow_ne_stdHeader i hi.symm
    have := ih (t ++ r.flatten)
      (fun run hrun => hrows run (List.mem_cons_of_mem r hrun)) hnotin
    simpa [completedRuns, hstep] using this

/-- C6 (amended) -- Header-once for completed runs: starting from no
artifact, after any positive number of writer runs that each run to
completion (terminating by closing the file), the artifact holds exactly
one header row, at the top, with all result rows appended after existing
content.  (The counterexample shows the claim's further coverage of
interrupted runs fails.) -/
theorem header_once_completed_runs (runs : List (List (List (List String))))
    (hne : runs ≠ [])
    (hrows : ∀ run ∈ runs, ∀ batch ∈ run, ∀ row ∈ batch, ∃ i, row = outRow i) :
    ∃ t, completedRuns none runs = some (stdHeader :: t)
      ∧ (stdHeader :: t).count stdHeader = 1 := by
  rcases runs with _ | ⟨r, rest⟩
  · exact absurd rfl hne
  · have hstep : runWriterLines none r = stdHeader :: r.flatten := by
      simp [runWriterLines_eq]
    have hnotin : stdHeader ∉ r.flatten := by
      intro hmem
      rcases List.mem_flatten.mp hmem with ⟨batch, hb, hrow⟩
      rcases hrows r (List.mem_cons_self r rest) batch hb _ hrow with ⟨i, hi⟩
      exact outRow_ne_stdHeader i hi.symm
    rcases completedRuns_header_invariant rest r.flatten
      (fun run hrun => hrows run (List.mem_cons_of_mem r hrun)) hnotin with
      ⟨t', hruns, ht'⟩
    refine ⟨t', by simpa [completedRuns, hstep] using hruns, ?_⟩
    simp [List.count_cons, List.count_eq_zero_of_not_mem ht']

/-- Witness for C6 (amended): two completed runs of one batch each,
starting from no artifact, leave exactly one header at the top. -/
theorem header_once_completed_runs_witness :
    ∃ t, completedRuns none [[[sampleRowA]], [[sampleRowB]]] = some (stdHeader :: t)
      ∧ (stdHeader :: t).count stdHeader = 1 :=
  header_once_completed_runs [[[sampleRowA]], [[sampleRowB]]] (by decide)
    (by
      intro run hrun batch hbatch row hrow
      simp only [List.mem_cons, List.not_mem_nil, or_false] at hrun
      rcases hrun with rfl | rfl
      · simp only [List.mem_cons, List.not_mem_nil, or_false] at hbatch
        subst hbatch
        simp only [List.mem_cons, List.not_mem_nil, or_false] at hrow
        exact ⟨_, hrow⟩
      · simp only [List.mem_cons, List.not_mem_nil, or_false] at hbatch
        subst hbatch
        simp only [List.mem_cons, List.not_mem_nil, or_false] at hrow
        exact ⟨_, hrow⟩)

/-- Counterexample to C6 as stated: a first run interrupted right after
artifact creation (the buffered header never reached disk) leaves an
existing empty artifact; the next, completed, run sees the file exists
and writes no header, so after these two runs the artifact contains zero
header rows, not exactly one. -/
theorem header_once_counterexample :
    (runWriterLines (interruptedRunWriter none [[sampleRowA]] 0)
        [[sampleRowB]]).count stdHeader = 0
    ∧ runWriterLines (interruptedRunWriter none [[sampleRowA]] 0) [[sampleRowB]]
        = [sampleRowB] := by
  decide

/-! ## Discoverer: `find_pdf_files` (v6 lines 81-119)

A directory tree is modelled as the list of its entries; each entry
carries its full slash-separated path, its kind (regular file,
directory, symlink -- what distinguishes the two enumeration paths),
and the inspector-facing data.  The find branch runs
`find root -type f -iname "*.pdf"` (regular files only, basename
matched case-insensitively), strips each output line and skips blanks
(v6 lines 100-111); the `rglob("*.[pP][dD][fF]")` branch yields every
entry whose basename matches the character-class pattern, whatever its
kind (v6 lines 89, 114).  Both branches then deduplicate by
`os.path.normcase`. -/

/-- What a directory entry is, as far as `find -type f` and `rglob`
distinguish them. -/
inductive FileKind
  | regular
  | directory
  | symlink
  deriving DecidableEq, Repr

/-- One filesystem entry of the scanned tree. -/
structure FsNode where
  path : String
  kind : FileKind
  stat : Except String Nat
  openRes : Except String PdfDoc
  deriving Repr

theorem toNat_charOfNat (n : Nat) (h : n.isValidChar) : (Char.ofNat n).toNat = n := by
  simp [Char.ofNat, h, Char.ofNatAux, Char.toNat, UInt32.toNat, BitVec.toNat_ofNatLt]

theorem char_toNat_inj (a b : Char) (hab : a.toNat = b.toNat) : a = b :=
  Char.ext (UInt32.ext hab)

theorem toLower_eq_low (c low upc : Char)
    (hlow : 97 ≤ low.toNat) (hlow2 : low.toNat ≤ 122) (hup : upc.toNat + 32 = low.toNat) :
    (c.toLower = low ↔ c = low ∨ c = upc) := by
  unfold Char.toLower
  by_cases hc : c.toNat ≥ 65 ∧ c.toNat ≤ 90
  · show (if c.toNat ≥ 65 ∧ c.toNat ≤ 90 then Char.ofNat (c.toNat + 32) else c) = low ↔ _
    rw [if_pos hc]
    have hv : (c.toNat + 32).isValidChar := by left; omega
    have ht : (Char.ofNat (c.toNat + 32)).toNat = c.toNat + 32 := toNat_charOfNat _ hv
    constructor
    · intro heq
      have h2 := congrArg Char.toNat heq
      rw [ht] at h2
      right
      exact char_toNat_inj c upc (by omega)
    · rintro (rfl | rfl)
      · exact absurd hc.2 (by omega)
      · exact char_toNat_inj _ _ (by omega)
  · show (if c.toNat ≥ 65 ∧ c.toNat ≤ 90 then Char.ofNat (c.toNat + 32) else c) = low ↔ _
    rw [if_neg hc]
    constructor
    · exact fun heq => Or.inl heq
    · rintro (rfl | rfl)
      · rfl
      · exact absurd ⟨by omega, by omega⟩ hc

theorem toLower_eq_dot (c : Char) : c.toLower = '.' ↔ c = '.' := by
  unfold Char.toLower
  by_cases hc : c.toNat ≥ 65 ∧ c.toNat ≤ 90
  · show (if c.toNat ≥ 65 ∧ c.toNat ≤ 90 then Char.ofNat (c.toNat + 32) else c) = '.' ↔ _
    rw [if_pos hc]
    have hv : (c.toNat + 32).isValidChar := by left; omega
    have ht : (Char.ofNat (c.toNat + 32)).toNat = c.toNat + 32 := toNat_charOfNat _ hv
    constructor
    · intro heq
      have h2 := congrArg Char.toNat heq
      rw [ht] at h2
      exact absurd h2 (by simp; omega)
    · rintro rfl
      exact absurd hc.1 (by simp)
  · show (if c.toNat ≥ 65 ∧ c.toNat ≤ 90 then Char.ofNat (c.toNat + 32) else c) = '.' ↔ _
    rw [if_neg hc]

/-- Python's `str.strip()`: drop whitespace from both ends. -/
def pyStrip (s : String) : String :=
  ⟨((s.data.dropWhile Char.isWhitespace).reverse.dropWhile Char.isWhitespace).reverse⟩

/-- The basename of a slash-separated path (the characters after the
last `/`), the component `find -iname` and the `rglob` pattern are
tested against. -/
def baseName (p : String) : String :=
  ⟨(p.data.reverse.takeWhile fun c => c != '/').reverse⟩

/-- `fnmatch` of a name against `*.pdf` with case folding, as
`find -iname "*.pdf"` tests basenames: `*` absorbs any (possibly empty)
prefix and the final four characters equal `.pdf` after folding each
with `tolower`. -/
def inameMatchPdf (n : String) : Bool :=
  match n.data.reverse with
  | f :: d :: p :: dot :: _ =>
    (f.toLower == 'f') && (d.toLower == 'd') && (p.toLower == 'p') && (dot.toLower == '.')
  | _ => false

/-- The `rglob("*.[pP][dD][fF]")` name test: `*` absorbs any (possibly
empty) prefix and the final four characters are `.`, then one character
from each of the classes `[pP]`, `[dD]`, `[fF]`. -/
def rglobMatchPdf (n : String) : Bool :=
  match n.data.reverse with
  | f :: d :: p :: dot :: _ =>
    (f == 'f' || f == 'F') && (d == 'd' || d == 'D') && (p == 'p' || p == 'P') && (dot == '.')
  | _ => false

/-- The two basename tests agree on every name. -/
theorem inameMatch_eq_rglobMatch (n : String) : inameMatchPdf n = rglobMatchPdf n := by
  unfold inameMatchPdf rglobMatchPdf
  rcases hrev : n.data.reverse with _ | ⟨f, _ | ⟨d, _ | ⟨p, _ | ⟨dot, rest⟩⟩⟩⟩ <;> try rfl
  rw [Bool.eq_iff_iff]
  simp only [Bool.and_eq_true, Bool.or_eq_true, beq_iff_eq]
  rw [toLower_eq_low f 'f' 'F' (by decide) (by decide) (by decide),
      toLower_eq_low d 'd' 'D' (by decide) (by decide) (by decide),
      toLower_eq_low p 'p' 'P' (by decide) (by decide) (by decide),
      toLower_eq_dot dot]

/-- The paths `find root -type f -iname "*.pdf"` prints: entries that
are regular files whose basename matches, in tree order. -/
def findRawPaths (tree : List FsNode) : List String :=
  (tree.filter fun e =>
    (e.kind == FileKind.regular) && inameMatchPdf (baseName e.path)).map (·.path)

/-- The character stream `find` writes to stdout: each printed path
followed by a newline. -/
def stdoutChars : List String → List Char
  | [] => []
  | p :: ps => p.data ++ '\n' :: stdoutChars ps

/-- Iterating a text-mode pipe line by line (`for line in proc.stdout`):
the stream is cut at every newline; each cut piece is one iterated line
(its terminator already removed -- the source's `strip()` would drop it
anyway). -/
def splitLinesAux : List Char → List Char → List String
  | [], acc => [⟨acc.reverse⟩]
  | c :: cs, acc =>
    if c = '\n' then ⟨acc.reverse⟩ :: splitLinesAux cs []
    else splitLinesAux cs (c :: acc)

/-- The find branch's stdout handling (v6 lines 102-105): read the
pipe's character stream line by line, strip each line, skip blanks.
A path containing a newline is therefore cut into several yielded
pieces, none of which is the original path. -/
def findYield (tree : List FsNode) : List String :=
  ((splitLinesAux (stdoutChars (findRawPaths tree)) []).map pyStrip).filter
    (fun p => p != "")

/-- The entries `rglob("*.[pP][dD][fF]")` yields: every entry whose
basename matches, whatever its kind. -/
def rglobPaths (tree : List FsNode) : List String :=
  (tree.filter fun e => rglobMatchPdf (baseName e.path)).map (·.path)

/-- The `seen`-set deduplication loop shared by both branches of
`find_pdf_files` (v6 lines 84, 107-111, 114-119): a path is yielded iff
its `normcase` has not been seen before. -/
def dedupByNormcase (seen : Finset String) : List String → List String
  | [] => []
  | p :: ps =>
    if normcase p ∈ seen then dedupByNormcase seen ps
    else p :: dedupByNormcase (insert (normcase p) seen) ps

/-- `find_pdf_files` on a Linux/Mac host where the `find` command
succeeds (v6 lines 98-111). -/
def find_pdf_files_find (tree : List FsNode) : List String :=
  dedupByNormcase ∅ (findYield tree)

/-- `find_pdf_files` on the portable `rglob` path (Windows, v6 lines
87-94, or the Linux fallback, v6 lines 112-119). -/
def find_pdf_files_rglob (tree : List FsNode) : List String :=
  dedupByNormcase ∅ (rglobPaths tree)

/-- The set of normalized identities of a yielded path sequence. -/
def normIdSet (paths : List String) : Finset String :=
  (paths.map normcase).toFinset

theorem splitLinesAux_append (l : List Char) (rest : List Char) :
    ∀ acc, '\n' ∉ l →
      splitLinesAux (l ++ '\n' :: rest) acc
        = ⟨acc.reverse ++ l⟩ :: splitLinesAux rest [] := by
  induction l with
  | nil =>
    intro acc _
    simp [splitLinesAux]
  | cons c l' ih =>
    intro acc h
    have hc : ¬ c = '\n' := fun hceq => h (hceq ▸ List.mem_cons_self c l')
    simp only [List.cons_append, splitLinesAux, hc, if_neg, not_false_iff,
      List.append_eq]
    rw [ih (c :: acc) fun hm => h (List.mem_cons_of_mem c hm)]
    simp

/-- Line iteration over `find`'s stdout recovers every printed path,
followed by one empty trailing line, as long as no path embeds a
newline. -/
theorem splitLines_stdout (ps : List String) (h : ∀ p ∈ ps, '\n' ∉ p.data) :
    splitLinesAux (stdoutChars ps) [] = ps ++ [""] := by
  induction ps with
  | nil => rfl
  | cons p rest ih =>
    simp only [stdoutChars]
    rw [splitLinesAux_append p.data (stdoutChars rest) []
      (h p (List.mem_cons_self p rest))]
    rw [ih fun q hq => h q (List.mem_cons_of_mem p hq)]
    simp

theorem find_raw_eq_rglob (tree : List FsNode)
    (hreg : ∀ e ∈ tree, rglobMatchPdf (baseName e.path) = true → e.kind = FileKind.regular)
    (hclean : ∀ e ∈ tree, pyStrip e.path = e.path) :
    ((findRawPaths tree).map pyStrip).filter (fun p => p != "") = rglobPaths tree := by
  unfold findRawPaths rglobPaths
  induction tree with
  | nil => rfl
  | cons e rest ih =>
    have ihr := ih (fun x hx => hreg x (List.mem_cons_of_mem e hx))
      (fun x hx => hclean x (List.mem_cons_of_mem e hx))
    by_cases hm : rglobMatchPdf (baseName e.path) = true
    · have hk : e.kind = FileKind.regular := hreg e (List.mem_cons_self e rest) hm
      have htrim : pyStrip e.path = e.path := hclean e (List.mem_cons_self e rest)
      have hiname : inameMatchPdf (baseName e.path) = true :=
        (inameMatch_eq_rglobMatch _).trans hm
      have hne : e.path ≠ "" := by
        intro hp
        rw [hp] at hm
        revert hm
        decide
      simp only [List.filter_cons, List.map_cons, hk, hm, hiname, beq_self_eq_true,
        Bool.and_self, if_pos, htrim]
      rw [if_pos (by simp [hne]), ihr]
    · have hiname : ¬ inameMatchPdf (baseName e.path) = true := by
        rw [inameMatch_eq_rglobMatch]; exact hm
      simp only [List.filter_cons]
      rw [Bool.not_eq_true] at hm hiname
      simp only [hm, hiname, Bool.and_false, Bool.false_eq_true, if_false]
      exact ihr

/-- C7 (amended) -- Discovery path equivalence for clean trees: when
every entry whose basename matches the PDF pattern is a regular file
and no entry's path embeds a newline or carries surrounding whitespace,
the find branch and the rglob branch yield the same sequence, hence the
same set of normalized identities.  (The counterexample shows
equivalence fails once a matching entry is a directory or symlink; a
newline inside a filename also breaks it, because the find branch reads
its child's stdout line by line and cuts such a path into pieces.) -/
theorem discovery_path_equivalence (tree : List FsNode)
    (hreg : ∀ e ∈ tree, rglobMatchPdf (baseName e.path) = true → e.kind = FileKind.regular)
    (hclean : ∀ e ∈ tree, pyStrip e.path = e.path)
    (hnl : ∀ e ∈ tree, '\n' ∉ e.path.data) :
    find_pdf_files_find tree = find_pdf_files_rglob tree
    ∧ normIdSet (find_pdf_files_find tree) = normIdSet (find_pdf_files_rglob tree) := by
  have hraw : ∀ p ∈ findRawPaths tree, '\n' ∉ p.data := by
    intro p hp
    unfold findRawPaths at hp
    rcases List.mem_map.mp hp with ⟨e, he, rfl⟩
    exact hnl e (List.mem_filter.mp he).1
  have hstrip : pyStrip "" = "" := rfl
  have hyield : findYield tree
      = ((findRawPaths tree).map pyStrip).filter (fun p => p != "") := by
    unfold findYield
    rw [splitLines_stdout _ hraw]
    simp [hstrip]
  have hlists : findYield tree = rglobPaths tree :=
    hyield.trans (find_raw_eq_rglob tree hreg hclean)
  refine ⟨?_, ?_⟩
  · unfold find_pdf_files_find find_pdf_files_rglob
    rw [hlists]
  · unfold find_pdf_files_find find_pdf_files_rglob
    rw [hlists]

/-- Witness for C7 (amended): a clean two-entry tree (one matching
regular file, one non-matching directory; no whitespace or newlines) on
which both branches agree. -/
theorem discovery_path_equivalence_witness :
    find_pdf_files_find
        [⟨"root/a.pdf", FileKind.regular, Except.ok 1024, Except.ok ⟨false, 5⟩⟩,
         ⟨"root/sub", FileKind.directory, Except.ok 4096, Except.error "dir"⟩]
      = find_pdf_files_rglob
        [⟨"root/a.pdf", FileKind.regular, Except.ok 1024, Except.ok ⟨false, 5⟩⟩,
         ⟨"root/sub", FileKind.directory, Except.ok 4096, Except.error "dir"⟩]
    ∧ normIdSet (find_pdf_files_find
        [⟨"root/a.pdf", FileKind.regular, Except.ok 1024, Except.ok ⟨false, 5⟩⟩,
         ⟨"root/sub", FileKind.directory, Except.ok 4096, Except.error "dir"⟩])
      = normIdSet (find_pdf_files_rglob
        [⟨"root/a.pdf", FileKind.regular, Except.ok 1024, Except.ok ⟨false, 5⟩⟩,
         ⟨"root/sub", FileKind.directory, Except.ok 4096, Except.error "dir"⟩]) := by
  refine discovery_path_equivalence _ ?_ ?_ ?_
  · intro e he
    revert e
    decide
  · intro e he
    revert e
    decide
  · intro e he
    revert e
    decide

/-- Counterexample to C7 as stated: on a tree whose only entry is a
directory named `root/manual.pdf`, the find branch (`-type f`) yields
nothing while the rglob branch yields the directory, so the two
normalized identity sets differ. -/
theorem discovery_path_counterexample :
    normIdSet (find_pdf_files_find
        [⟨"root/manual.pdf", FileKind.directory, Except.ok 4096, Except.error "dir"⟩])
      ≠ normIdSet (find_pdf_files_rglob
        [⟨"root/manual.pdf", FileKind.directory, Except.ok 4096, Except.error "dir"⟩]) := by
  decide

/-! ## Ledger: `load_processed_csv` (v6 lines 122-138)

The artifact file is `none` when missing, otherwise the list of its
parsed CSV rows (each a list of fields; the `csv` module round-trips
fields exactly).  `csv.DictReader` takes the first row as the
fieldnames, skips blank rows, and maps each remaining row to a dict. -/

/-- `row.get(key)` under `csv.DictReader` semantics: the dict is
`dict(zip(fieldnames, row))` (on duplicate fieldnames the later column
wins) with fieldnames beyond the row's length filled with the restval
`None`; `none` models both an absent key and a `None` value, which the
caller's `if p:` treats alike. -/
def dictReaderGet (header row : List String) (key : String) : Option String :=
  match header.reverse.findIdx? (· == key) with
  | none => none
  | some r => row[header.length - 1 - r]?

/-- `load_processed_csv` (v6 lines 122-138): empty set for a missing
artifact; otherwise read rows under the artifact's own header, take each
row's `file_path` when present and truthy, normalize it and insert it
into the set; rows without a usable `file_path` are skipped and the scan
continues. -/
def load_processed_csv (art : Option (List (List String))) : Finset String :=
  match art with
  | none => ∅
  | some [] => ∅
  | some (header :: rows) =>
    (rows.filter fun r => r != []).foldl
      (fun processed row =>
        match dictReaderGet header row "file_path" with
        | some p => if p ≠ "" then insert (normcase p) processed else processed
        | none => processed) ∅

theorem load_processed_foldl_mem (header : List String) (rows : List (List String))
    (acc : Finset String) (x : String) :
    (x ∈ rows.foldl
        (fun processed row =>
          match dictReaderGet header row "file_path" with
          | some p => if p ≠ "" then insert (normcase p) processed else processed
          | none => processed) acc) ↔
      (x ∈ acc ∨ ∃ row ∈ rows, ∃ p, dictReaderGet header row "file_path" = some p
        ∧ p ≠ "" ∧ x = normcase p) := by
  induction rows generalizing acc with
  | nil => simp
  | cons r rest ih =>
    rcases hget : dictReaderGet header r "file_path" with _ | p
    · rw [List.foldl_cons]
      simp only [hget]
      rw [ih]
      constructor
      · rintro (hx | hx)
        · exact Or.inl hx
        · rcases hx with ⟨row, hrow, hp⟩
          exact Or.inr ⟨row, List.mem_cons_of_mem r hrow, hp⟩
      · rintro (hx | ⟨row, hrow, p, hp, hpne, rfl⟩)
        · exact Or.inl hx
        · rcases List.mem_cons.mp hrow with rfl | hrow
          · rw [hget] at hp; cases hp
          · exact Or.inr ⟨row, hrow, p, hp, hpne, rfl⟩
    · by_cases hpne : p = ""
      · rw [List.foldl_cons]
        simp only [hget, hpne, ne_eq, not_true_eq_false, if_false]
        rw [ih]
        constructor
        · rintro (hx | ⟨row, hrow, hp⟩)
          · exact Or.inl hx
          · exact Or.inr ⟨row, List.mem_cons_of_mem r hrow, hp⟩
        · rintro (hx | ⟨row, hrow, q, hq, hqne, rfl⟩)
          · exact Or.inl hx
          · rcases List.mem_cons.mp hrow with rfl | hrow
            · rw [hget] at hq
              cases hq
              exact absurd hpne hqne
            · exact Or.inr ⟨row, hrow, q, hq, hqne, rfl⟩
      · rw [List.foldl_cons]
        simp only [hget, hpne, ne_eq, not_false_iff, if_pos]
        rw [ih]
        constructor
        · rintro (hx | ⟨row, hrow, hp⟩)
          · rcases Finset.mem_insert.mp hx with rfl | hx
            · exact Or.inr ⟨r, List.mem_cons_self r rest, p, hget, hpne, rfl⟩
            · exact Or.inl hx
          · exact Or.inr ⟨row, List.mem_cons_of_mem r hrow, hp⟩
        · rintro (hx | ⟨row, hrow, q, hq, hqne, rfl⟩)
          · exact Or.inl (Finset.mem_insert_of_mem hx)
          · rcases List.mem_cons.mp hrow with rfl | hrow
            · rw [hget] at hq
              cases hq
              exact Or.inl (Finset.mem_insert_self _ _)
            · exact Or.inr ⟨row, hrow, q, hq, hqne, rfl⟩

/-- Membership in the loaded ledger: exactly the normalized non-empty
`file_path` values of the artifact's data rows. -/
theorem load_processed_csv_mem (header : List String) (rows : List (List String))
    (x : String) :
    x ∈ load_processed_csv (some (header :: rows)) ↔
      ∃ row ∈ rows, row ≠ [] ∧ ∃ p, dictReaderGet header row "file_path" = some p
        ∧ p ≠ "" ∧ x = normcase p := by
  unfold load_processed_csv
  rw [load_processed_foldl_mem]
  simp only [Finset.not_mem_empty, false_or, List.mem_filter]
  constructor
  · rintro ⟨row, ⟨hrow, hne⟩, hp⟩
    exact ⟨row, hrow, by simpa using hne, hp⟩
  · rintro ⟨row, hrow, hne, hp⟩
    exact ⟨row, ⟨hrow, by simpa using hne⟩, hp⟩

/-- C9 -- Ledger load tolerance: loading a missing artifact returns the
empty set; loading any artifact is a total function that skips rows
without a usable `file_path` and keeps scanning, so the normalized
identity of every well-formed row is in the returned set no matter what
malformed rows surround it. -/
theorem ledger_load_tolerance (header : List String) (rows : List (List String))
    (row : List String) (p : String) (hrow : row ∈ rows)
    (hp : dictReaderGet header row "file_path" = some p) (hpne : p ≠ "") :
    load_processed_csv none = ∅
    ∧ normcase p ∈ load_processed_csv (some (header :: rows)) := by
  refine ⟨rfl, ?_⟩
  rw [load_processed_csv_mem]
  have hne : row ≠ [] := by
    intro h
    rw [h] at hp
    unfold dictReaderGet at hp
    rcases hidx : header.reverse.findIdx? (· == "file_path") with _ | r <;>
      rw [hidx] at hp <;> simp at hp
  exact ⟨row, hrow, hne, p, hp, hpne, rfl⟩

/-- Witness for C9: an artifact holding a well-formed row, a blank row,
a truncated row with an empty `file_path`, and a second well-formed row;
the loader keeps the final well-formed row's identity. -/
theorem ledger_load_tolerance_witness :
    load_processed_csv none = ∅
    ∧ normcase "b.pdf" ∈ load_processed_csv (some
        [stdHeader,
         ["a.pdf", "1024", "True", "5", "0.0", "", "S-S"],
         [],
         [""],
         ["b.pdf", "2048", "True", "7", "0.0", "", "S-S"]]) :=
  ledger_load_tolerance stdHeader
    [["a.pdf", "1024", "True", "5", "0.0", "", "S-S"],
     [],
     [""],
     ["b.pdf", "2048", "True", "7", "0.0", "", "S-S"]]
    ["b.pdf", "2048", "True", "7", "0.0", "", "S-S"] "b.pdf"
    (by decide) (by decide) (by decide)

/-! ## Worker pool submission: v6 lines 192-198 versus v2/v3 lines
163-198

A pool interaction is a trace of events: `submit` hands one identity to
`executor.submit`, `consume` takes one completed future out of
`as_completed`.  v6 builds the whole `futures` dict in a comprehension
over the generator before consuming anything; v2/v3 accumulate
`pdf_batch`, flush it to the pool when it reaches `workers * 10`
entries, and drain every outstanding future before submitting the next
batch (clearing `future_to_path`), finally submitting and draining the
leftover batch. -/

/-- One pool interaction event. -/
inductive PoolEvent
  | submit (p : String)
  | consume
  deriving DecidableEq, Repr

/-- v6 lines 194-199: submit every identity of the stream, then consume
results as they complete. -/
def v6PoolTrace (ids : List String) : List PoolEvent :=
  ids.map PoolEvent.submit ++ ids.map fun _ => PoolEvent.consume

/-- The v2/v3 submission loop (v2 lines 168-207): accumulate
`pdf_batch`; on reaching `b` entries submit them all, drain them all,
clear; at stream end submit and drain the leftover batch. -/
def v2SubmitLoop (b : Nat) : List String → List String → List PoolEvent
  | [], pdfBatch =>
    pdfBatch.map PoolEvent.submit ++ pdfBatch.map fun _ => PoolEvent.consume
  | p :: rest, pdfBatch =>
    let batch := pdfBatch ++ [p]
    if b ≤ batch.length then
      (batch.map PoolEvent.submit ++ batch.map fun _ => PoolEvent.consume)
        ++ v2SubmitLoop b rest []
    else
      v2SubmitLoop b rest batch

/-- v2 line 165: `batch_size = workers * 10`. -/
def v2PoolTrace (workers : Nat) (ids : List String) : List PoolEvent :=
  v2SubmitLoop (workers * 10) ids []

/-- Running count and running maximum of submitted-but-unconsumed
tasks along a trace. -/
def inFlightMaxAux : List PoolEvent → Nat → Nat → Nat
  | [], _, mx => mx
  | PoolEvent.submit _ :: es, cur, mx => inFlightMaxAux es (cur + 1) (max mx (cur + 1))
  | PoolEvent.consume :: es, cur, mx => inFlightMaxAux es (cur - 1) mx

/-- Peak number of in-flight tasks over a whole trace. -/
def maxInFlight (tr : List PoolEvent) : Nat :=
  inFlightMaxAux tr 0 0

theorem inFlightMaxAux_submits (xs : List String) (ys : List PoolEvent)
    (cur mx : Nat) (hcm : cur ≤ mx) :
    inFlightMaxAux (xs.map PoolEvent.submit ++ ys) cur mx =
      inFlightMaxAux ys (cur + xs.length) (max mx (cur + xs.length)) := by
  induction xs generalizing cur mx with
  | nil => simp [Nat.max_eq_left hcm]
  | cons x rest ih =>
    simp only [List.map_cons, List.cons_append, inFlightMaxAux, List.length_cons,
      List.append_eq]
    rw [ih (cur + 1) (max mx (cur + 1)) (Nat.le_max_right _ _)]
    congr 1
    · omega
    · rw [Nat.max_assoc]
      congr 1
      omega

theorem inFlightMaxAux_consumes (ys : List String) (tr : List PoolEvent)
    (cur mx : Nat) :
    inFlightMaxAux ((ys.map fun _ => PoolEvent.consume) ++ tr) cur mx =
      inFlightMaxAux tr (cur - ys.length) mx := by
  induction ys generalizing cur with
  | nil => simp
  | cons y rest ih =>
    simp only [List.map_cons, List.cons_append, inFlightMaxAux, List.length_cons,
      List.append_eq]
    rw [ih (cur - 1)]
    congr 1
    omega

theorem inFlightMaxAux_chunk (chunk : List String) (rest : List PoolEvent) (mx : Nat) :
    inFlightMaxAux ((chunk.map PoolEvent.submit
        ++ chunk.map fun _ => PoolEvent.consume) ++ rest) 0 mx =
      inFlightMaxAux rest 0 (max mx chunk.length) := by
  rw [List.append_assoc, inFlightMaxAux_submits chunk _ 0 mx (Nat.zero_le mx),
    inFlightMaxAux_consumes]
  simp

theorem v2SubmitLoop_bound (b : Nat) (hb : 1 ≤ b) (ids : List String) :
    ∀ pdfBatch : List String, ∀ mx : Nat, pdfBatch.length < b →
      inFlightMaxAux (v2SubmitLoop b ids pdfBatch) 0 mx ≤ max mx b := by
  induction ids with
  | nil =>
    intro pdfBatch mx hlen
    unfold v2SubmitLoop
    have := inFlightMaxAux_chunk pdfBatch [] mx
    rw [List.append_nil] at this
    rw [this]
    simp only [inFlightMaxAux]
    exact max_le_max (le_refl mx) (Nat.le_of_lt hlen)
  | cons p rest ih =>
    intro pdfBatch mx hlen
    unfold v2SubmitLoop
    by_cases hflush : b ≤ (pdfBatch ++ [p]).length
    · simp only [hflush, if_pos]
      rw [inFlightMaxAux_chunk]
      have hlen2 : (pdfBatch ++ [p]).length ≤ b := by
        simp only [List.length_append, List.length_cons, List.length_nil]
        omega
      calc inFlightMaxAux (v2SubmitLoop b rest []) 0 (max mx (pdfBatch ++ [p]).length)
          ≤ max (max mx (pdfBatch ++ [p]).length) b := ih [] _ (by simpa using hb)
        _ ≤ max mx b := by
            rw [Nat.max_assoc]
            exact max_le_max (le_refl mx) (max_le hlen2 (le_refl b))
    · simp only [hflush, if_neg, not_false_iff]
      refine ih (pdfBatch ++ [p]) mx ?_
      simp only [List.length_append, List.length_cons, List.length_nil] at hflush ⊢
      omega

/-- C4 (amended) -- Submission throttling holds for v2/v3 but not v6:
the v2/v3 loop keeps the number of submitted-but-unconsumed tasks at or
below `workers * 10` at every point of the run, while v6 submits the
entire filtered identity stream before consuming any result, so its
peak in-flight count equals the whole stream's length and is not
bounded by any constant multiple of the worker count. -/
theorem submission_throttling (workers : Nat) (hw : 1 ≤ workers) (ids : List String) :
    maxInFlight (v6PoolTrace ids) = ids.length
    ∧ maxInFlight (v2PoolTrace workers ids) ≤ workers * 10 := by
  constructor
  · unfold maxInFlight v6PoolTrace
    rw [inFlightMaxAux_submits ids _ 0 0 (le_refl 0)]
    have h2 := inFlightMaxAux_consumes ids [] (0 + ids.length) (max 0 (0 + ids.length))
    rw [List.append_nil] at h2
    rw [h2]
    simp [inFlightMaxAux]
  · have hb : 1 ≤ workers * 10 := by omega
    have := v2SubmitLoop_bound (workers * 10) hb ids [] 0
      (by simp only [List.length_nil]; omega)
    simpa [v2PoolTrace, maxInFlight] using this

/-- Witness for C4 (amended): two identities with one worker; v6's peak
in-flight equals 2, v2's stays at or below 10. -/
theorem submission_throttling_witness :
    maxInFlight (v6PoolTrace ["a.pdf", "b.pdf"]) = (["a.pdf", "b.pdf"] : List String).length
    ∧ maxInFlight (v2PoolTrace 1 ["a.pdf", "b.pdf"]) ≤ 1 * 10 :=
  submission_throttling 1 (by decide) ["a.pdf", "b.pdf"]

/-- Counterexample to C4 as stated: a filtered stream of 21 identities
with 2 workers drives v6's peak in-flight count to 21, already above
the `10 * N = 20` throttle its sibling versions enforce -- the whole
stream is fed to the pool at once, so no bound independent of the
stream length exists. -/
theorem bounded_submission_counterexample :
    maxInFlight (v6PoolTrace (List.replicate 21 "x.pdf")) = 21
    ∧ 10 * 2 < maxInFlight (v6PoolTrace (List.replicate 21 "x.pdf")) := by
  decide

/-! ## Pipeline: `process_pdfs` (v6 lines 168-227)

The run streams `find_pdf_files` through the ledger filter (line 190),
inspects every surviving identity in a worker (results arrive in
completion order, an arbitrary permutation of the filtered stream,
which theorems quantify over as `arrival`), batches results by
`BATCH_WRITE_SIZE` with a final partial batch (lines 200-222), and
hands the batches to the writer thread.  Discovered paths are produced
by `str(Path(...))`/`find`, so `str(Path(p))` round-trips to `p` and
the worker records `file_path = p` for the submitted identity `p`. -/

/-- `BATCH_WRITE_SIZE` (v6 line 22). -/
def BATCH_WRITE_SIZE : Nat := 1000

/-- What `Path(p).stat()` / `fitz.open(p)` find for a submitted path:
the tree entry with that path, or the missing-file failure. -/
def fsLookup (tree : List FsNode) (p : String) : PdfFsFile :=
  match tree.find? (fun e => e.path == p) with
  | some e => ⟨p, e.stat, e.openRes⟩
  | none => ⟨p, Except.error "No such file or directory",
      Except.error "no such file or directory"⟩

/-- `find_pdf_files` (v6 lines 81-119): the find branch when the
`find` command is available and succeeds, otherwise the rglob walk. -/
def find_pdf_files (useFind : Bool) (tree : List FsNode) : List String :=
  if useFind then find_pdf_files_find tree else find_pdf_files_rglob tree

/-- The filtered identity stream fed to the pool (v6 lines 173, 190):
discovery composed with the consumption-site ledger filter. -/
def filteredIds (tree : List FsNode) (art : Option (List (List String)))
    (resume useFind : Bool) : List String :=
  let processed := if resume then load_processed_csv art else ∅
  (find_pdf_files useFind tree).filter fun p => decide (normcase p ∉ processed)

/-- The aggregator's batching loop (v6 lines 198-222): append each
arriving result, flush a copy at `cap` entries, flush the final
partial batch if non-empty. -/
def batchLoop (cap : Nat) : List (List String) → List (List String) →
    List (List (List String))
  | [], batch => if batch.isEmpty then [] else [batch]
  | x :: rest, batch =>
    let batch := batch ++ [x]
    if cap ≤ batch.length then batch :: batchLoop cap rest []
    else batchLoop cap rest batch

/-- The serialized result rows of a run, in arrival order (v6 lines
199-200 and the writer's row serialization). -/
def runRows (tree : List FsNode) (arrival : List String) : List (List String) :=
  arrival.map fun p => outRow (process_single_pdf (fsLookup tree p))

/-- One complete pipeline run over `tree` with results arriving in the
order `arrival` (a permutation of the filtered stream): inspect each
identity, serialize, batch, and run the writer thread over the previous
artifact. -/
def pipelineRun (tree : List FsNode) (arrival : List String)
    (art : Option (List (List String))) : Option (List (List String)) :=
  some (runWriterLines art (batchLoop BATCH_WRITE_SIZE (runRows tree arrival) []))

/-- The normalized identity a data row contributes, exactly as
`load_processed_csv` extracts it. -/
def rowIdentity? (header row : List String) : Option String :=
  match dictReaderGet header row "file_path" with
  | some p => if p ≠ "" then some (normcase p) else none
  | none => none

/-- The sequence of normalized identities recorded in an artifact's
data rows. -/
def artifactIdentities (art : Option (List (List String))) : List String :=
  match art with
  | none => []
  | some [] => []
  | some (_header :: rows) => rows.filterMap (rowIdentity? stdHeader)

theorem dictReaderGet_nil (header : List String) (key : String) :
    dictReaderGet header [] key = none := by
  unfold dictReaderGet
  rcases header.reverse.findIdx? (· == key) with _ | r
  · rfl
  · simp

theorem dictReaderGet_stdHeader (row : List String) :
    dictReaderGet stdHeader row "file_path" = row[0]? := rfl

theorem batchLoop_flatten (cap : Nat) (l : List (List String)) :
    ∀ batch, (batchLoop cap l batch).flatten = batch ++ l := by
  induction l with
  | nil =>
    intro batch
    unfold batchLoop
    rcases hb : batch with _ | ⟨x, xs⟩ <;> simp
  | cons x rest ih =>
    intro batch
    unfold batchLoop
    by_cases hcap : cap ≤ (batch ++ [x]).length
    · simp only [hcap, if_pos, List.flatten_cons, ih []]
      simp
    · simp only [hcap, if_neg, not_false_iff, ih (batch ++ [x])]
      simp

theorem dedupByNormcase_sub (ps : List String) :
    ∀ seen, ∀ q ∈ dedupByNormcase seen ps, q ∈ ps := by
  induction ps with
  | nil => intro seen q hq; cases hq
  | cons p rest ih =>
    intro seen q hq
    unfold dedupByNormcase at hq
    by_cases hp : normcase p ∈ seen
    · rw [if_pos hp] at hq
      exact List.mem_cons_of_mem p (ih seen q hq)
    · rw [if_neg hp] at hq
      rcases List.mem_cons.mp hq with rfl | hq
      · exact List.mem_cons_self q rest
      · exact List.mem_cons_of_mem p (ih _ q hq)

theorem dedupByNormcase_nodup (ps : List String) :
    ∀ seen, ((dedupByNormcase seen ps).map normcase).Nodup
      ∧ ∀ q ∈ dedupByNormcase seen ps, normcase q ∉ seen := by
  induction ps with
  | nil =>
    intro seen
    exact ⟨List.nodup_nil, fun q hq => absurd hq (List.not_mem_nil q)⟩
  | cons p rest ih =>
    intro seen
    unfold dedupByNormcase
    by_cases hp : normcase p ∈ seen
    · rw [if_pos hp]
      exact ih seen
    · rw [if_neg hp]
      obtain ⟨ihn, ihs⟩ := ih (insert (normcase p) seen)
      refine ⟨?_, ?_⟩
      · rw [List.map_cons, List.nodup_cons]
        refine ⟨?_, ihn⟩
        intro hmem
        rcases List.mem_map.mp hmem with ⟨q, hq, hqe⟩
        exact ihs q hq (hqe ▸ Finset.mem_insert_self _ _)
      · intro q hq
        rcases List.mem_cons.mp hq with rfl | hq
        · exact hp
        · intro hqs
          exact ihs q hq (Finset.mem_insert_of_mem hqs)

theorem find_pdf_files_nodup (useFind : Bool) (tree : List FsNode) :
    ((find_pdf_files useFind tree).map normcase).Nodup := by
  rcases useFind with _ | _
  · exact (dedupByNormcase_nodup (rglobPaths tree) ∅).1
  · exact (dedupByNormcase_nodup (findYield tree) ∅).1

theorem rglobMatch_path_nonempty (p : String)
    (h : rglobMatchPdf (baseName p) = true) : p ≠ "" := by
  intro hp
  rw [hp] at h
  revert h
  decide

theorem find_pdf_files_nonempty (useFind : Bool) (tree : List FsNode) :
    ∀ p ∈ find_pdf_files useFind tree, p ≠ "" := by
  intro p hp
  rcases useFind with _ | _
  · have hin := dedupByNormcase_sub (rglobPaths tree) ∅ p hp
    unfold rglobPaths at hin
    rcases List.mem_map.mp hin with ⟨e, he, rfl⟩
    exact rglobMatch_path_nonempty _ (List.mem_filter.mp he).2
  · have hin := dedupByNormcase_sub (findYield tree) ∅ p hp
    unfold findYield at hin
    have := (List.mem_filter.mp hin).2
    simpa using this

theorem fsLookup_path (tree : List FsNode) (p : String) :
    (fsLookup tree p).path = p := by
  unfold fsLookup
  rcases h : tree.find? (fun e => e.path == p) with _ | e <;> rw [h]

theorem process_file_path (f : PdfFsFile) :
    (process_single_pdf f).file_path = f.path := by
  rcases f with ⟨p, stat, openRes⟩
  rcases stat with e | size
  · rfl
  · simp only [process_single_pdf, initInfo]
    by_cases hsz : size < 100
    · simp [hsz]
    · rcases openRes with e | doc
      · simp [hsz]
      · by_cases henc : doc.isEncrypted <;> simp [hsz, henc]

/-- The identity recorded by the row of an inspected path is its
normalized form. -/
theorem rowIdentity_outRow (tree : List FsNode) (p : String) (hp : p ≠ "") :
    rowIdentity? stdHeader (outRow (process_single_pdf (fsLookup tree p)))
      = some (normcase p) := by
  unfold rowIdentity?
  rw [dictReaderGet_stdHeader]
  have hpath : (process_single_pdf (fsLookup tree p)).file_path = p :=
    (process_file_path _).trans (fsLookup_path tree p)
  simp only [outRow, List.getElem?_cons_zero, hpath, hp, ne_eq, not_false_iff, if_pos]

theorem mem_artifactIdentities_ledger (rows : List (List String)) (x : String)
    (hx : x ∈ artifactIdentities (some (stdHeader :: rows))) :
    x ∈ load_processed_csv (some (stdHeader :: rows)) := by
  unfold artifactIdentities at hx
  rcases List.mem_filterMap.mp hx with ⟨row, hrow, hid⟩
  unfold rowIdentity? at hid
  rcases hget : dictReaderGet stdHeader row "file_path" with _ | p <;> rw [hget] at hid
  · simp at hid
  · have hid2 : (if p ≠ "" then some (normcase p) else none) = some x := hid
    by_cases hpne : p = ""
    · simp [hpne] at hid2
    · rw [if_pos hpne] at hid2
      obtain rfl : normcase p = x := by injection hid2
      rw [load_processed_csv_mem]
      have hrne : row ≠ [] := by
        intro h
        rw [h, dictReaderGet_nil] at hget
        cases hget
      exact ⟨row, hrow, hrne, p, hget, hpne, rfl⟩

/-- The identities recorded by a run's rows are exactly the normalized
arrival identities. -/
theorem runRows_identities (tree : List FsNode) (l : List String)
    (hne : ∀ p ∈ l, p ≠ "") :
    (runRows tree l).filterMap (rowIdentity? stdHeader) = l.map normcase := by
  induction l with
  | nil => rfl
  | cons p rest ih =>
    unfold runRows at *
    simp only [List.map_cons, List.filterMap_cons]
    rw [rowIdentity_outRow tree p (hne p (List.mem_cons_self p rest))]
    rw [ih fun q hq => hne q (List.mem_cons_of_mem p hq)]

/-- C1 -- Resume dedup round-trip: for every tree and well-formed
previous artifact, and any arrival order of the filtered stream, (i)
after the run completes, a resumed re-scan of the same tree filters out
every discovered identity, (ii) so a second resumed run (whatever its
arrival order) leaves the artifact unchanged -- zero new rows; (iii) if
the previous artifact's normalized identities were pairwise distinct
then so are the final artifact's, because the discoverer suppresses
duplicate normalized identities within a scan and the consumption-site
filter drops every identity already in the loaded ledger; and (iv) on
no prior artifact a fresh (resume-disabled) run filters exactly like a
resumed one, so the same holds for fresh runs. -/
theorem resume_dedup_roundtrip (tree : List FsNode) (useFind : Bool)
    (art : Option (List (List String))) (a1 : List String)
    (hwf : art = none ∨ ∃ rows, art = some (stdHeader :: rows))
    (h1 : a1.Perm (filteredIds tree art true useFind)) :
    filteredIds tree (pipelineRun tree a1 art) true useFind = []
    ∧ (∀ a2 : List String,
        a2.Perm (filteredIds tree (pipelineRun tree a1 art) true useFind) →
        pipelineRun tree a2 (pipelineRun tree a1 art) = pipelineRun tree a1 art)
    ∧ ((artifactIdentities art).Nodup →
        (artifactIdentities (pipelineRun tree a1 art)).Nodup)
    ∧ filteredIds tree none true useFind = filteredIds tree none false useFind := by
  classical
  have hflat : (batchLoop BATCH_WRITE_SIZE (runRows tree a1) []).flatten
      = runRows tree a1 := by
    simpa using batchLoop_flatten BATCH_WRITE_SIZE (runRows tree a1) []
  have hne1 : ∀ p ∈ a1, p ≠ "" := by
    intro p hp
    have hp2 : p ∈ filteredIds tree art true useFind := h1.mem_iff.mp hp
    exact find_pdf_files_nonempty useFind tree p (List.mem_filter.mp hp2).1
  obtain ⟨A, hart2, hmono, hidsA, hAled⟩ :
      ∃ A, pipelineRun tree a1 art = some (stdHeader :: (A ++ runRows tree a1))
        ∧ (∀ x, x ∈ load_processed_csv art →
            x ∈ load_processed_csv (some (stdHeader :: (A ++ runRows tree a1))))
        ∧ artifactIdentities art = A.filterMap (rowIdentity? stdHeader)
        ∧ (∀ x ∈ A.filterMap (rowIdentity? stdHeader), x ∈ load_processed_csv art) := by
    rcases hwf with rfl | ⟨rows, rfl⟩
    · refine ⟨[], ?_, ?_, rfl, ?_⟩
      · unfold pipelineRun
        rw [runWriterLines_eq]
        simp [hflat]
      · intro x hx
        simp [load_processed_csv] at hx
      · intro x hx
        simp at hx
    · refine ⟨rows, ?_, ?_, rfl, ?_⟩
      · unfold pipelineRun
        rw [runWriterLines_eq]
        simp [hflat]
      · intro x hx
        rw [load_processed_csv_mem] at hx ⊢
        obtain ⟨row, hrow, hrest⟩ := hx
        exact ⟨row, List.mem_append_left _ hrow, hrest⟩
      · intro x hx
        exact mem_artifactIdentities_ledger rows x hx
  have hledger2 : ∀ p ∈ find_pdf_files useFind tree,
      normcase p ∈ load_processed_csv (some (stdHeader :: (A ++ runRows tree a1))) := by
    intro p hp
    by_cases hmem : normcase p ∈ load_processed_csv art
    · exact hmono _ hmem
    · have hpf : p ∈ filteredIds tree art true useFind := by
        unfold filteredIds
        exact List.mem_filter.mpr ⟨hp, decide_eq_true hmem⟩
      have hpa : p ∈ a1 := h1.mem_iff.mpr hpf
      rw [load_processed_csv_mem]
      refine ⟨outRow (process_single_pdf (fsLookup tree p)), ?_, ?_, p, ?_,
        hne1 p hpa, rfl⟩
      · refine List.mem_append_right _ ?_
        unfold runRows
        exact List.mem_map.mpr ⟨p, hpa, rfl⟩
      · simp [outRow]
      · rw [dictReaderGet_stdHeader]
        simp only [outRow, List.getElem?_cons_zero]
        rw [(process_file_path _).trans (fsLookup_path tree p)]
  have hforward : filteredIds tree (pipelineRun tree a1 art) true useFind = [] := by
    rw [hart2]
    unfold filteredIds
    rw [List.filter_eq_nil_iff]
    intro p hp hdec
    exact (of_decide_eq_true hdec) (hledger2 p hp)
  refine ⟨hforward, ?_, ?_, rfl⟩
  · intro a2 ha2
    rw [hforward] at ha2
    have ha2nil : a2 = [] := ha2.eq_nil
    subst ha2nil
    rw [hart2]
    simp [pipelineRun, runRows, batchLoop, runWriterLines_eq]
  · intro hnd
    rw [hart2]
    show (List.filterMap (rowIdentity? stdHeader) (A ++ runRows tree a1)).Nodup
    rw [List.filterMap_append, runRows_identities tree a1 hne1, ← hidsA]
    rw [List.nodup_append]
    refine ⟨hnd, ?_, ?_⟩
    · have hsub : List.Sublist ((filteredIds tree art true useFind).map normcase)
          ((find_pdf_files useFind tree).map normcase) := by
        unfold filteredIds
        exact (List.filter_sublist _).map normcase
      exact ((h1.map normcase).nodup_iff).mpr
        (List.Nodup.sublist hsub (find_pdf_files_nodup useFind tree))
    · intro x hx1 hx2
      have hled1 : x ∈ load_processed_csv art := hAled x (hidsA ▸ hx1)
      rcases List.mem_map.mp hx2 with ⟨p, hpa, rfl⟩
      have hpf : p ∈ filteredIds tree art true useFind := h1.mem_iff.mp hpa
      exact (of_decide_eq_true (List.mem_filter.mp hpf).2) hled1

/-- Witness for C1: a one-file tree starting from no artifact; both the
re-scan emptiness, the second-run fixed point, the no-duplication
conclusion, and the fresh-run agreement hold at this instance. -/
theorem resume_dedup_roundtrip_witness :
    filteredIds [⟨"root/a.pdf", FileKind.regular, Except.ok 1024, Except.ok ⟨false, 5⟩⟩]
        (pipelineRun [⟨"root/a.pdf", FileKind.regular, Except.ok 1024, Except.ok ⟨false, 5⟩⟩]
          ["root/a.pdf"] none) true true = []
    ∧ (∀ a2 : List String,
        a2.Perm (filteredIds
          [⟨"root/a.pdf", FileKind.regular, Except.ok 1024, Except.ok ⟨false, 5⟩⟩]
          (pipelineRun [⟨"root/a.pdf", FileKind.regular, Except.ok 1024, Except.ok ⟨false, 5⟩⟩]
            ["root/a.pdf"] none) true true) →
        pipelineRun [⟨"root/a.pdf", FileKind.regular, Except.ok 1024, Except.ok ⟨false, 5⟩⟩]
          a2 (pipelineRun [⟨"root/a.pdf", FileKind.regular, Except.ok 1024, Except.ok ⟨false, 5⟩⟩]
            ["root/a.pdf"] none)
          = pipelineRun [⟨"root/a.pdf", FileKind.regular, Except.ok 1024, Except.ok ⟨false, 5⟩⟩]
            ["root/a.pdf"] none)
    ∧ ((artifactIdentities none).Nodup →
        (artifactIdentities
          (pipelineRun [⟨"root/a.pdf", FileKind.regular, Except.ok 1024, Except.ok ⟨false, 5⟩⟩]
            ["root/a.pdf"] none)).Nodup)
    ∧ filteredIds [⟨"root/a.pdf", FileKind.regular, Except.ok 1024, Except.ok ⟨false, 5⟩⟩]
        none true true
      = filteredIds [⟨"root/a.pdf", FileKind.regular, Except.ok 1024, Except.ok ⟨false, 5⟩⟩]
        none false true :=
  resume_dedup_roundtrip
    [⟨"root/a.pdf", FileKind.regular, Except.ok 1024, Except.ok ⟨false, 5⟩⟩]
    true none ["root/a.pdf"] (Or.inl rfl) (by decide)

/-- C10 -- Empty-run artifact creation: with no prior artifact and a
run that discovers zero unprocessed identities, the writer thread still
creates the artifact and writes the header row, leaving a header-only
artifact behind rather than no artifact. -/
theorem empty_run_creates_artifact (tree : List FsNode) (resume useFind : Bool)
    (a : List String) (ha : a.Perm (filteredIds tree none resume useFind))
    (hempty : filteredIds tree none resume useFind = []) :
    pipelineRun tree a none = some [stdHeader] := by
  rw [hempty] at ha
  have ha2 : a = [] := ha.eq_nil
  subst ha2
  simp [pipelineRun, runRows, batchLoop, runWriterLines_eq]

/-- Witness for C10: an empty tree with resume enabled leaves behind
exactly the header-only artifact. -/
theorem empty_run_creates_artifact_witness :
    pipelineRun [] [] none = some [stdHeader] :=
  empty_run_creates_artifact [] true true [] (by decide) (by decide)

end PdfBucketing
